import Mathlib

set_option maxRecDepth 8000

/-!
# Verification of the sha256-simd digest engine (src/sha256.go)

Shallow embedding of the streaming SHA-256 digest of `src/sha256.go`:
the digest state machine (`digest`, `Reset`, `Write`, `Sum`, `checkSum`),
the one-shot helpers (`Sum256`, `Sum256D32`) and the serialization helper
(`Int2Bytes`).  Bytes are modelled as `Nat` (values < 256 in every real
run), machine words as `Nat` reduced modulo `2^32` / `2^64` where the Go
code uses `uint32` / `uint64`.

The hardware compression backends (`blockGeneric`, `blockAvx2Go`, ...)
are not part of the source tree of this repository; per the specification they
are interchangeable implementations of the standard SHA-256 compression
function, so a single reference compression function is modelled from the
specification and used wherever the Go code dispatches to a backend.
-/

namespace Sha256Simd

/-- Go constant `chunk` (src/sha256.go line 33): block size in bytes. -/
def chunk : Nat := 64

/-- Go constant `Size` (line 27): digest size in bytes. -/
def Size : Nat := 32

/-- Go constant `BlockSize` (line 30): block size in bytes. -/
def BlockSize : Nat := 64

/-- The eight initialization constants `Init0` .. `Init7`
(src/sha256.go lines 37-46), collected in order as the initial hash state. -/
def initH : List Nat :=
  [0x6A09E667, 0xBB67AE85, 0x3C6EF372, 0xA54FF53A,
   0x510E527F, 0x9B05688C, 0x1F83D9AB, 0x5BE0CD19]

/-- Truncation to an unsigned 32-bit word. -/
def w32 (x : Nat) : Nat := x % 2 ^ 32

/-- Modelled from the spec: 32-bit right rotation, a primitive of the
standard SHA-256 compression function implemented by the backends that are
outside the source tree of this repository. -/
def rotr (n x : Nat) : Nat := w32 ((x >>> n) ||| (x <<< (32 - n)))

/-- Modelled from the spec: the SHA-256 `Ch` function (`x` chooses between
`y` and `z`); complement taken within 32 bits. -/
def ch (x y z : Nat) : Nat := (x &&& y) ^^^ ((x ^^^ 0xFFFFFFFF) &&& z)

/-- Modelled from the spec: the SHA-256 `Maj` (majority) function. -/
def maj (x y z : Nat) : Nat := (x &&& y) ^^^ (x &&& z) ^^^ (y &&& z)

/-- Modelled from the spec: the SHA-256 big sigma-0 function. -/
def bigSigma0 (x : Nat) : Nat := rotr 2 x ^^^ rotr 13 x ^^^ rotr 22 x

/-- Modelled from the spec: the SHA-256 big sigma-1 function. -/
def bigSigma1 (x : Nat) : Nat := rotr 6 x ^^^ rotr 11 x ^^^ rotr 25 x

/-- Modelled from the spec: the SHA-256 small sigma-0 function. -/
def smallSigma0 (x : Nat) : Nat := rotr 7 x ^^^ rotr 18 x ^^^ (x >>> 3)

/-- Modelled from the spec: the SHA-256 small sigma-1 function. -/
def smallSigma1 (x : Nat) : Nat := rotr 17 x ^^^ rotr 19 x ^^^ (x >>> 10)

/-- Modelled from the spec: the 64 SHA-256 round constants of the standard. -/
def roundK : List Nat :=
  [1116352408, 1899447441, 3049323471, 3921009573, 961987163,
   1508970993, 2453635748, 2870763221, 3624381080, 310598401,
   607225278, 1426881987, 1925078388, 2162078206, 2614888103,
   3248222580, 3835390401, 4022224774, 264347078, 604807628,
   770255983, 1249150122, 1555081692, 1996064986, 2554220882,
   2821834349, 2952996808, 3210313671, 3336571891, 3584528711,
   113926993, 338241895, 666307205, 773529912, 1294757372,
   1396182291, 1695183700, 1986661051, 2177026350, 2456956037,
   2730485921, 2820302411, 3259730800, 3345764771, 3516065817,
   3600352804, 4094571909, 275423344, 430227734, 506948616,
   659060556, 883997877, 958139571, 1322822218, 1537002063,
   1747873779, 1955562222, 2024104815, 2227730452, 2361852424,
   2428436474, 2756734187, 3204031479, 3329325298]

/-- Modelled from the spec: big-endian packing of a byte stream into
32-bit words, as the backends read a 64-byte block. -/
def bytesToWords : List Nat → List Nat
  | a :: b :: c :: d :: rest =>
      ((a <<< 24) + (b <<< 16) + (c <<< 8) + d) :: bytesToWords rest
  | _ => []

/-- Modelled from the spec: one extension step of the SHA-256 message
schedule, appending `w[i] = sigma1 w[i-2] + w[i-7] + sigma0 w[i-15] + w[i-16]`. -/
def scheduleStep (ws : List Nat) : List Nat :=
  ws ++ [w32 (smallSigma1 (ws.getD (ws.length - 2) 0) +
              ws.getD (ws.length - 7) 0 +
              smallSigma0 (ws.getD (ws.length - 15) 0) +
              ws.getD (ws.length - 16) 0)]

/-- Modelled from the spec: iterate the message-schedule extension. -/
def schedule : Nat → List Nat → List Nat
  | 0, ws => ws
  | k + 1, ws => schedule k (scheduleStep ws)

/-- Modelled from the spec: one SHA-256 round on the working variables
`[a,b,c,d,e,f,g,h]`, with `kw` the sum of round constant and schedule word. -/
def round (st : List Nat) (k w : Nat) : List Nat :=
  match st with
  | [a, b, c, d, e, f, g, h] =>
      let t1 := w32 (h + bigSigma1 e + ch e f g + k + w)
      let t2 := w32 (bigSigma0 a + maj a b c)
      [w32 (t1 + t2), a, b, c, w32 (d + t1), e, f, g]
  | st => st

/-- Modelled from the spec: the standard SHA-256 compression function on a
single 64-byte block, as computed (bit-identically) by every backend. -/
def sha256Compress (h : List Nat) (blk : List Nat) : List Nat :=
  let ws := schedule 48 (bytesToWords blk)
  let st := (roundK.zip ws).foldl (fun st kw => round st kw.1 kw.2) h
  h.zipWith (fun x y => w32 (x + y)) st

/-- The block loop of the backends: compress `fuel` consecutive 64-byte
blocks taken from the front of `p`, chaining the state. -/
def blockLoop : Nat → List Nat → List Nat → List Nat
  | 0, h, _ => h
  | fuel + 1, h, p => blockLoop fuel (sha256Compress h (p.take 64)) (p.drop 64)

/-- Model of Go `Block` (src/sha256.go lines 71-84) and `block`
(lines 86-99): both dispatch on the capability flags to one of the
backend compression routines, all of which (per the backend
contract of the spec) compress the complete 64-byte blocks of `p` in order, chaining
the state, and are bit-identical; the dispatch therefore collapses to the
single modelled compression loop. -/
def blockCompress (h : List Nat) (p : List Nat) : List Nat :=
  blockLoop (p.length / 64) h p

/-- Go struct `digest` (src/sha256.go lines 49-54).  The 64-byte buffer
`x` is modelled by its valid portion `x[0:nx]` (the Go code never reads
`x[nx:]`: the buffer is only passed to the compression function when
`nx == chunk`, i.e. when it is entirely valid), so `x.length = nx` is an
invariant of the model; `len` is the `uint64` length counter. -/
structure Digest where
  h : List Nat
  x : List Nat
  nx : Nat
  len : Nat
deriving Repr, DecidableEq

/-- Go `digest.Reset` (src/sha256.go lines 57-68): hash state back to the
IV, counters to zero (with `nx = 0` the modelled valid buffer portion is
empty). -/
def Digest.Reset (_ : Digest) : Digest :=
  { h := initH, x := [], nx := 0, len := 0 }

/-- The state of `var d digest; d.Reset()`. -/
def resetState : Digest :=
  Digest.Reset { h := [0, 0, 0, 0, 0, 0, 0, 0], x := [], nx := 0, len := 0 }

/-- First block of Go `digest.Write` (src/sha256.go lines 161-169): if
bytes are buffered, `copy(d.x[d.nx:], p)` tops the buffer up with
`n = min (chunk - nx) (len p)` bytes; a filled buffer is compressed and
`nx` reset to 0.  Returns the updated state and the remaining `p[n:]`. -/
def writeStep1 (d : Digest) (p : List Nat) : Digest × List Nat :=
  if 0 < d.nx then
    let n := min (chunk - d.nx) p.length
    if d.nx + n = chunk then
      ({ d with h := blockCompress d.h (d.x ++ p.take n), x := [], nx := 0 },
       p.drop n)
    else
      ({ d with x := d.x ++ p.take n, nx := d.nx + n }, p.drop n)
  else (d, p)

/-- Second block of Go `digest.Write` (src/sha256.go lines 170-174): if at
least one whole block remains, `n := len(p) &^ (chunk-1)` bytes (the
largest multiple of 64) are compressed directly from `p`. -/
def writeStep2 (d : Digest) (p : List Nat) : Digest × List Nat :=
  if chunk ≤ p.length then
    let n := p.length - p.length % chunk
    ({ d with h := blockCompress d.h (p.take n) }, p.drop n)
  else (d, p)

/-- Third block of Go `digest.Write` (src/sha256.go lines 175-177): a
leftover fragment is buffered, `d.nx = copy(d.x[:], p)`. -/
def writeStep3 (d : Digest) (p : List Nat) : Digest :=
  if 0 < p.length then
    { d with x := p.take chunk, nx := min chunk p.length }
  else d

/-- Go `digest.Write` (src/sha256.go lines 158-179): bumps the `uint64`
length counter by `len p`, runs the three buffering/compression steps, and
returns `(nn, err) = (len p, nil)` alongside the new state. -/
def Digest.Write (d : Digest) (p : List Nat) : Digest × Nat × Option Unit :=
  let d1 := { d with len := (d.len + p.length) % 2 ^ 64 }
  let s1 := writeStep1 d1 p
  let s2 := writeStep2 s1.1 s1.2
  (writeStep3 s2.1 s2.2, p.length, none)

/-- The padding bytes written by Go `digest.checkSum`
(src/sha256.go lines 192-199): `tmp[0:k]` with `tmp = 0x80, 0, ..., 0` and
`k` chosen so the buffered count reaches 56 mod 64. -/
def padBytes (l : Nat) : List Nat :=
  if l % 64 < 56 then (0x80 :: List.replicate 63 0).take (56 - l % 64)
  else (0x80 :: List.replicate 63 0).take (64 + 56 - l % 64)

/-- The eight length bytes written by Go `digest.checkSum`
(lines 201-206): the original byte count shifted left by 3 as a `uint64`
(`len <<= 3`), serialized big-endian (`tmp[i] = byte(len >> (56-8*i))`). -/
def lenBytes (l : Nat) : List Nat :=
  (List.range 8).map fun i => (((l <<< 3) % 2 ^ 64) >>> (56 - 8 * i)) % 256

/-- The serialization at the end of Go `digest.checkSum`
(lines 212-222): each word `s` to the four bytes
`byte(s>>24), byte(s>>16), byte(s>>8), byte(s)` at offsets `i*4 ..`. -/
def serializeWords (h : List Nat) : List Nat :=
  (h.map fun s => [(s >>> 24) % 256, (s >>> 16) % 256, (s >>> 8) % 256, s % 256]).flatten

/-- Go `digest.checkSum` (src/sha256.go lines 190-223): writes the padding
and the bit length through `Write`, then — mutated state alongside the
result — panics if bytes remain buffered (`none`), else serializes the
eight hash words big-endian into the 32 digest bytes. -/
def Digest.checkSum (d : Digest) : Digest × Option (List Nat) :=
  let l := d.len
  let d1 := (d.Write (padBytes l)).1
  let d2 := (d1.Write (lenBytes l)).1
  if d2.nx ≠ 0 then (d2, none)
  else (d2, some (serializeWords d2.h))

/-- The intermediate state of `checkSum` after the padding and length
writes (the state inspected by the `d.nx != 0` panic guard). -/
def padded (d : Digest) : Digest :=
  ((d.Write (padBytes d.len)).1.Write (lenBytes d.len)).1

theorem checkSum_eq_padded (d : Digest) :
    d.checkSum = if (padded d).nx ≠ 0 then (padded d, none)
                 else (padded d, some (serializeWords (padded d).h)) := rfl

/-- Go `digest.Sum` (src/sha256.go lines 182-187): finalizes a copy
(`d0 := *d`), leaving the receiver unchanged (returned as the state
component), and appends the digest to `in`. -/
def Digest.Sum (d : Digest) (acc : List Nat) : Digest × Option (List Nat) :=
  let d0 := d
  (d, (d0.checkSum).2.map fun hash => acc ++ hash)

/-- Go `Int2Bytes` (src/sha256.go lines 102-106): each `uint32` word via
`binary.BigEndian.PutUint32` at offset `i<<2`. -/
def Int2Bytes (h : List Nat) : List Nat :=
  (h.map fun s => [(s >>> 24) % 256, (s >>> 16) % 256, (s >>> 8) % 256, s % 256]).flatten

/-- Go `Sum256` (src/sha256.go lines 121-126): one-shot digest through a
fresh streaming state. -/
def Sum256 (data : List Nat) : Option (List Nat) :=
  let d := resetState
  let d1 := (d.Write data).1
  (d1.checkSum).2

/-- Go `Sum256D32` (src/sha256.go lines 129-149): builds one 64-byte block
directly — `copy(buf, data)` (min (64, len data) bytes over a zeroed
buffer), `buf[32] = 0x80`, `buf[62] = 0x01` — compresses it once from the
IV and serializes via `Int2Bytes`.  No length validation, no error path. -/
def Sum256D32 (data : List Nat) : List Nat :=
  let n := min 64 data.length
  let buf := ((data.take n ++ List.replicate (64 - n) 0).set 32 0x80).set 62 0x01
  let stat := blockCompress initH buf
  Int2Bytes stat

/-- Folding a list of chunks through successive `Write` calls. -/
def writeAll (d : Digest) (cs : List (List Nat)) : Digest :=
  cs.foldl (fun d c => (d.Write c).1) d

/-- The digest state reached after writing the byte stream `s` to a
freshly reset digest: the complete blocks absorbed into the hash state,
the trailing fragment buffered, counters set. -/
def stateOf (s : List Nat) : Digest :=
  { h := blockCompress initH s,
    x := s.drop (s.length - s.length % 64),
    nx := s.length % 64,
    len := s.length % 2 ^ 64 }

/-- Lowercase-hexadecimal rendering of a byte list. -/
def hexDigit (n : Nat) : Char :=
  if n < 10 then Char.ofNat (48 + n) else Char.ofNat (87 + n)

/-- Lowercase-hexadecimal rendering of a byte list, two digits per byte. -/
def bytesToHex (bs : List Nat) : String :=
  String.mk (bs.flatMap fun b => [hexDigit (b / 16), hexDigit (b % 16)])

/-! ## Lemmas about the block-compression loop -/

theorem blockLoop_append (j : Nat) (h a b : List Nat) (hj : 64 * j ≤ a.length) :
    blockLoop j h (a ++ b) = blockLoop j h a := by
  induction j generalizing h a with
  | zero => rfl
  | succ j ih =>
    rw [blockLoop, blockLoop,
        List.take_append_of_le_length (by omega),
        List.drop_append_of_le_length (by omega),
        ih _ _ (by rw [List.length_drop]; omega)]

theorem blockLoop_add (i j : Nat) (h p : List Nat) :
    blockLoop (i + j) h p = blockLoop j (blockLoop i h p) (p.drop (64 * i)) := by
  induction i generalizing h p with
  | zero => simp [blockLoop]
  | succ i ih =>
    rw [show i + 1 + j = (i + j) + 1 from by omega, blockLoop, ih, blockLoop,
        List.drop_drop, show 64 + 64 * i = 64 * (i + 1) from by ring]

theorem blockCompress_nil (h : List Nat) : blockCompress h [] = h := rfl

theorem blockCompress_short (h p : List Nat) (hp : p.length < 64) :
    blockCompress h p = h := by
  unfold blockCompress
  rw [Nat.div_eq_of_lt hp]
  rfl

theorem blockCompress_append (h a b : List Nat) (ha : a.length % 64 = 0) :
    blockCompress h (a ++ b) = blockCompress (blockCompress h a) b := by
  unfold blockCompress
  rw [List.length_append,
      show (a.length + b.length) / 64 = a.length / 64 + b.length / 64 from by omega,
      blockLoop_add, show 64 * (a.length / 64) = a.length from by omega,
      List.drop_left, blockLoop_append _ _ _ _ (by omega)]

theorem blockCompress_trim (h s : List Nat) :
    blockCompress h s = blockCompress h (s.take (s.length - s.length % 64)) := by
  have hs : s = s.take (s.length - s.length % 64) ++ s.drop (s.length - s.length % 64) :=
    (List.take_append_drop _ s).symm
  have hl : (s.take (s.length - s.length % 64)).length = s.length - s.length % 64 := by
    rw [List.length_take]; omega
  conv_lhs => rw [hs]
  rw [blockCompress_append _ _ _ (by rw [hl]; omega),
      blockCompress_short _ _ (by rw [List.length_drop]; omega)]

theorem blockCompress_single (h b : List Nat) (hb : b.length = 64) :
    blockCompress h b = sha256Compress h b := by
  unfold blockCompress
  rw [hb]
  show sha256Compress h (b.take 64) = _
  rw [← hb, List.take_length]


/-! ## Behaviour of the three Write steps -/

theorem writeStep1_nx0 (d : Digest) (p : List Nat) (h : d.nx = 0) :
    writeStep1 d p = (d, p) := by
  unfold writeStep1
  rw [if_neg (by omega)]

theorem writeStep1_small (d : Digest) (p : List Nat) (h0 : 0 < d.nx)
    (hsm : d.nx + p.length < chunk) :
    writeStep1 d p = ({ d with x := d.x ++ p, nx := d.nx + p.length }, []) := by
  unfold writeStep1
  rw [if_pos h0]
  have hmin : min (chunk - d.nx) p.length = p.length := by omega
  simp only [hmin, List.take_length, List.drop_length]
  rw [if_neg (by omega)]

theorem writeStep1_fill (d : Digest) (p : List Nat) (h0 : 0 < d.nx)
    (hlt : d.nx < chunk) (hbig : chunk ≤ d.nx + p.length) :
    writeStep1 d p =
      ({ d with h := blockCompress d.h (d.x ++ p.take (chunk - d.nx)), x := [], nx := 0 },
       p.drop (chunk - d.nx)) := by
  unfold writeStep1
  rw [if_pos h0]
  have hmin : min (chunk - d.nx) p.length = chunk - d.nx := by omega
  simp only [hmin]
  rw [if_pos (by omega)]

theorem writeStep2_eq (d : Digest) (p : List Nat) :
    writeStep2 d p =
      ({ d with h := blockCompress d.h (p.take (p.length - p.length % 64)) },
       p.drop (p.length - p.length % 64)) := by
  unfold writeStep2
  split_ifs with hc
  · rfl
  · have hlt : p.length < 64 := by simpa [chunk] using hc
    have h0 : p.length - p.length % 64 = 0 := by omega
    rw [h0]
    simp [blockCompress_nil]


theorem writeStep2_nil (d : Digest) : writeStep2 d [] = (d, []) := rfl

theorem writeStep3_nil (d : Digest) : writeStep3 d [] = d := by
  unfold writeStep3
  simp

theorem writeStep3_small (d : Digest) (p : List Nat) (h0 : 0 < p.length)
    (hle : p.length ≤ chunk) :
    writeStep3 d p = { d with x := p, nx := p.length } := by
  unfold writeStep3
  rw [if_pos h0, List.take_of_length_le hle, Nat.min_eq_right hle]


theorem absorb_decomp (s p : List Nat) (hr : 0 < s.length % 64)
    (hbg : 64 ≤ s.length % 64 + p.length) :
    blockCompress initH (s ++ p) =
      blockCompress
        (blockCompress (blockCompress initH s)
          (s.drop (s.length - s.length % 64) ++ p.take (64 - s.length % 64)))
        ((p.drop (64 - s.length % 64)).take
          ((p.drop (64 - s.length % 64)).length -
            (p.drop (64 - s.length % 64)).length % 64)) := by
  have hrlt : s.length % 64 < 64 := Nat.mod_lt _ (by omega)
  have hA : (s.take (s.length - s.length % 64)).length = s.length - s.length % 64 := by
    rw [List.length_take]; omega
  have hX : (s.drop (s.length - s.length % 64)).length = s.length % 64 := by
    rw [List.length_drop]; omega
  have hT : (p.take (64 - s.length % 64)).length = 64 - s.length % 64 := by
    rw [List.length_take]; omega
  conv_lhs => rw [← List.take_append_drop (s.length - s.length % 64) s,
    List.append_assoc]
  rw [blockCompress_append _ _ _ (by rw [hA]; omega), ← blockCompress_trim]
  conv_lhs => rw [← List.take_append_drop (64 - s.length % 64) p,
    ← List.append_assoc]
  rw [blockCompress_append _ _ _ (by rw [List.length_append, hX, hT]; omega)]
  rw [blockCompress_trim]

theorem write_stateOf (s p : List Nat) :
    ((stateOf s).Write p).1 = stateOf (s ++ p) := by
  have hrlt : s.length % 64 < 64 := Nat.mod_lt _ (by omega)
  have hlp : (s ++ p).length = s.length + p.length := List.length_append s p
  have hd1 : ({ stateOf s with len := ((stateOf s).len + p.length) % 2 ^ 64 } : Digest)
      = { h := blockCompress initH s, x := s.drop (s.length - s.length % 64),
          nx := s.length % 64, len := (s.length + p.length) % 2 ^ 64 } := by
    simp [stateOf, Nat.mod_add_mod]
  simp only [Digest.Write, hd1]
  rcases Nat.eq_zero_or_pos (s.length % 64) with hr | hr
  · -- no buffered bytes: step 1 is a no-op
    rw [writeStep1_nx0 _ _ hr, writeStep2_eq]
    dsimp only
    rcases Nat.eq_zero_or_pos (p.length % 64) with hp | hp
    · have hdrop : p.drop (p.length - p.length % 64) = [] := by
        rw [hp, Nat.sub_zero, List.drop_length]
      rw [hdrop, writeStep3_nil]
      unfold stateOf
      simp only [Digest.mk.injEq]
      refine ⟨?_, ?_, ?_, ?_⟩
      · rw [blockCompress_append _ _ _ hr, hp, Nat.sub_zero, List.take_length]
      · rw [hr, Nat.sub_zero, List.drop_length, hlp,
          show s.length + p.length - (s.length + p.length) % 64 = s.length + p.length
            from by omega, ← hlp, List.drop_length]
      · rw [hlp]; omega
      · rw [hlp]
    · have hp1 : (p.drop (p.length - p.length % 64)).length = p.length % 64 := by
        rw [List.length_drop]; omega
      rw [writeStep3_small _ _ (by rw [hp1]; omega)
        (by rw [hp1]; show p.length % 64 ≤ 64; omega)]
      unfold stateOf
      simp only [Digest.mk.injEq]
      refine ⟨?_, ?_, ?_, ?_⟩
      · rw [blockCompress_append _ _ _ hr]
        conv_rhs => rw [blockCompress_trim]
      · rw [hlp, show (s.length + p.length) % 64 = p.length % 64 from by omega,
          show s.length + p.length - p.length % 64
            = s.length + (p.length - p.length % 64) from by omega,
          List.drop_append]
      · rw [hp1, hlp]; omega
      · rw [hlp]
  · -- buffered bytes present
    have hX : (s.drop (s.length - s.length % 64)).length = s.length % 64 := by
      rw [List.length_drop]; omega
    rcases lt_or_ge (s.length % 64 + p.length) 64 with hsm | hbg
    · -- the fragment fits in the buffer
      rw [writeStep1_small _ _ (by show 0 < s.length % 64; omega)
        (by show s.length % 64 + p.length < 64; omega)]
      dsimp only
      rw [writeStep2_nil, writeStep3_nil]
      unfold stateOf
      simp only [Digest.mk.injEq]
      refine ⟨?_, ?_, ?_, ?_⟩
      · conv_lhs => rw [blockCompress_trim]
        conv_rhs => rw [blockCompress_trim]
        rw [hlp, show s.length + p.length - (s.length + p.length) % 64
            = s.length - s.length % 64 from by omega,
          List.take_append_of_le_length (by omega)]
      · rw [hlp, show s.length + p.length - (s.length + p.length) % 64
            = s.length - s.length % 64 from by omega,
          List.drop_append_of_le_length (by omega)]
      · rw [hlp]; omega
      · rw [hlp]
    · -- the buffer fills: one compression, then bulk blocks, then refill
      rw [writeStep1_fill _ _ (by show 0 < s.length % 64; omega)
        (by show s.length % 64 < 64; omega)
        (by show 64 ≤ s.length % 64 + p.length; omega)]
      dsimp only
      rw [writeStep2_eq]
      dsimp only
      simp only [chunk]
      have hp1 : (p.drop (64 - s.length % 64)).length = p.length - (64 - s.length % 64) := by
        rw [List.length_drop]
      rcases Nat.eq_zero_or_pos ((p.drop (64 - s.length % 64)).length % 64) with hq | hq
      · have hdrop : (p.drop (64 - s.length % 64)).drop
            ((p.drop (64 - s.length % 64)).length -
              (p.drop (64 - s.length % 64)).length % 64) = [] := by
          rw [hq, Nat.sub_zero, List.drop_length]
        rw [hdrop, writeStep3_nil]
        unfold stateOf
        simp only [Digest.mk.injEq]
        refine ⟨?_, ?_, ?_, ?_⟩
        · rw [absorb_decomp s p hr hbg]
        · rw [hlp, show (s.length + p.length) % 64 = 0 from by omega,
            Nat.sub_zero, ← hlp, List.drop_length]
        · rw [hlp]; omega
        · rw [hlp]
      · have hrem : ((p.drop (64 - s.length % 64)).drop
            ((p.drop (64 - s.length % 64)).length -
              (p.drop (64 - s.length % 64)).length % 64)).length
            = (p.drop (64 - s.length % 64)).length % 64 := by
          rw [List.length_drop]; omega
        rw [writeStep3_small _ _ (by rw [hrem]; omega)
          (by rw [hrem]; show _ % 64 ≤ 64; omega)]
        unfold stateOf
        simp only [Digest.mk.injEq]
        refine ⟨?_, ?_, ?_, ?_⟩
        · rw [absorb_decomp s p hr hbg]
        · rw [hlp, show (s.length + p.length) % 64
              = (p.drop (64 - s.length % 64)).length % 64 from by omega,
            show s.length + p.length - (p.drop (64 - s.length % 64)).length % 64
              = s.length + ((64 - s.length % 64) +
                ((p.drop (64 - s.length % 64)).length -
                  (p.drop (64 - s.length % 64)).length % 64)) from by omega,
            List.drop_append, ← List.drop_drop]
        · rw [hrem, hlp]; omega
        · rw [hlp]


/-! ## The reachable-state characterization -/

theorem resetState_eq : resetState = stateOf [] := rfl

theorem writeAll_stateOf (s : List Nat) (cs : List (List Nat)) :
    writeAll (stateOf s) cs = stateOf (s ++ cs.flatten) := by
  induction cs generalizing s with
  | nil => simp [writeAll]
  | cons c cs ih =>
    simp only [writeAll, List.foldl_cons] at *
    rw [write_stateOf, ih (s ++ c), List.flatten_cons, List.append_assoc]

theorem writeAll_reset (cs : List (List Nat)) :
    writeAll resetState cs = stateOf cs.flatten := by
  rw [resetState_eq, writeAll_stateOf, List.nil_append]

/-! ## Write never fails and keeps exact count -/

theorem writeStep1_len (d : Digest) (p : List Nat) :
    (writeStep1 d p).1.len = d.len := by
  unfold writeStep1
  dsimp only
  split_ifs <;> rfl

theorem writeStep2_len (d : Digest) (p : List Nat) :
    (writeStep2 d p).1.len = d.len := by
  unfold writeStep2
  split_ifs <;> rfl

theorem writeStep3_len (d : Digest) (p : List Nat) :
    (writeStep3 d p).len = d.len := by
  unfold writeStep3
  split_ifs <;> rfl

/-! ## Finalization: padding arithmetic -/

theorem padBytes_mod (l : Nat) : padBytes (l % 2 ^ 64) = padBytes l := by
  unfold padBytes
  rw [Nat.mod_mod_of_dvd l (by norm_num)]

theorem lenBytes_mod (l : Nat) : lenBytes (l % 2 ^ 64) = lenBytes l := by
  unfold lenBytes
  have hb : ((l % 2 ^ 64) <<< 3) % 2 ^ 64 = (l <<< 3) % 2 ^ 64 := by
    rw [Nat.shiftLeft_eq, Nat.shiftLeft_eq, Nat.mul_mod, Nat.mod_mod]
    rw [← Nat.mul_mod]
  simp only [hb]

theorem padBytes_length (l : Nat) :
    (padBytes l).length = if l % 64 < 56 then 56 - l % 64 else 120 - l % 64 := by
  have h64 : l % 64 < 64 := Nat.mod_lt _ (by omega)
  unfold padBytes
  split_ifs with h <;> rw [List.length_take] <;> simp <;> omega

theorem lenBytes_length (l : Nat) : (lenBytes l).length = 8 := by
  simp [lenBytes]

theorem padded_stateOf (s : List Nat) :
    padded (stateOf s) =
      stateOf ((s ++ padBytes s.length) ++ lenBytes s.length) := by
  unfold padded
  rw [show (stateOf s).len = s.length % 2 ^ 64 from rfl, padBytes_mod, lenBytes_mod,
      write_stateOf, write_stateOf]

theorem padded_nx (s : List Nat) : (padded (stateOf s)).nx = 0 := by
  rw [padded_stateOf]
  show ((s ++ padBytes s.length) ++ lenBytes s.length).length % 64 = 0
  have hp := padBytes_length s.length
  have h64 : s.length % 64 < 64 := Nat.mod_lt _ (by omega)
  rw [List.length_append, List.length_append, lenBytes_length]
  split_ifs at hp <;> omega

theorem checkSum_stateOf (s : List Nat) :
    (stateOf s).checkSum =
      (padded (stateOf s),
       some (serializeWords
         (blockCompress initH ((s ++ padBytes s.length) ++ lenBytes s.length)))) := by
  rw [checkSum_eq_padded, if_neg (by simp [padded_nx])]
  rw [padded_stateOf]
  rfl


/-! ## Shape of the hash state -/

theorem round_length (st : List Nat) (hst : st.length = 8) (k w : Nat) :
    (round st k w).length = 8 := by
  rcases st with _ | ⟨a, _ | ⟨b, _ | ⟨c, _ | ⟨d, _ | ⟨e, _ | ⟨f, _ | ⟨g, _ | ⟨h, _ | ⟨i, t⟩⟩⟩⟩⟩⟩⟩⟩⟩ <;>
    simp_all [round]

theorem foldl_round_length (kws : List (Nat × Nat)) (st : List Nat)
    (hst : st.length = 8) :
    (kws.foldl (fun st kw => round st kw.1 kw.2) st).length = 8 := by
  induction kws generalizing st with
  | nil => simpa
  | cons kw kws ih => exact ih _ (round_length _ hst _ _)

theorem sha256Compress_length (h blk : List Nat) (h8 : h.length = 8) :
    (sha256Compress h blk).length = 8 := by
  unfold sha256Compress
  rw [List.length_zipWith, foldl_round_length _ _ h8, h8]
  rfl

theorem blockLoop_length (fuel : Nat) (h p : List Nat) (h8 : h.length = 8) :
    (blockLoop fuel h p).length = 8 := by
  induction fuel generalizing h p with
  | zero => simpa [blockLoop]
  | succ n ih => exact ih _ _ (sha256Compress_length _ _ h8)

theorem blockCompress_length (h p : List Nat) (h8 : h.length = 8) :
    (blockCompress h p).length = 8 :=
  blockLoop_length _ _ _ h8

theorem int2Bytes_length (h : List Nat) : (Int2Bytes h).length = 4 * h.length := by
  induction h with
  | nil => rfl
  | cons a t ih =>
    simp only [Int2Bytes, List.map_cons, List.flatten_cons, List.length_append,
      List.length_cons, List.length_nil] at *
    omega


/-! ## The claims -/

/-- Claim C1 (chunking invariance): for every byte sequence and every way of
splitting it into consecutive chunks, writing the chunks one `Write` call at
a time to a freshly `Reset` digest and then finalizing yields the same
digest as writing the whole sequence in a single `Write` call and
finalizing. -/
theorem c1_chunking_invariance (cs : List (List Nat)) :
    ((writeAll resetState cs).checkSum).2 =
      (((resetState.Write cs.flatten).1).checkSum).2 := by
  rw [writeAll_reset, resetState_eq, write_stateOf, List.nil_append]

/-- Claim C7: for every digest state and every byte slice `p` (including the
empty one), `Write p` returns the byte count `len p` with a `nil` error, and
advances the `uint64` total-length counter by exactly `len p`. -/
theorem c7_write_total (d : Digest) (p : List Nat) :
    (d.Write p).2.1 = p.length ∧ (d.Write p).2.2 = none ∧
    (d.Write p).1.len = (d.len + p.length) % 2 ^ 64 := by
  refine ⟨rfl, rfl, ?_⟩
  simp only [Digest.Write]
  rw [writeStep3_len, writeStep2_len, writeStep1_len]

/-- Claim C9: after `Reset` and after every sequence of `Write` calls, the
buffered count `nx` lies in `[0, 64)`, equals the residue of the total
stream length modulo the block size, and the buffer holds exactly the
trailing not-yet-compressed input bytes. -/
theorem c9_buffered_count_invariant (cs : List (List Nat)) :
    (writeAll resetState cs).nx < 64 ∧
    (writeAll resetState cs).nx = cs.flatten.length % 64 ∧
    (writeAll resetState cs).x =
      cs.flatten.drop (cs.flatten.length - cs.flatten.length % 64) := by
  rw [writeAll_reset]
  exact ⟨Nat.mod_lt _ (by omega), rfl, rfl⟩

/-- Claim C5: for every reachable digest state, after `checkSum` has fed the
`0x80` byte, the zero padding and the 8-byte big-endian bit length through
the write path, the buffered count is exactly 0, so the panic branch
(`d.nx != 0`) is unreachable and finalization always produces a digest. -/
theorem c5_padding_invariant (cs : List (List Nat)) :
    (padded (writeAll resetState cs)).nx = 0 ∧
    ((writeAll resetState cs).checkSum).2 ≠ none := by
  rw [writeAll_reset]
  refine ⟨padded_nx _, ?_⟩
  rw [checkSum_stateOf]
  simp

/-- Claim C6: `Sum` is non-destructive — it leaves the digest state (hash
words, buffer, buffered count, total length) unchanged, so summarizing,
then writing more bytes, then finalizing yields the same digest as
finalizing a single stream over the concatenation of all bytes written. -/
theorem c6_sum_nondestructive (cs : List (List Nat)) (p acc : List Nat) :
    ((writeAll resetState cs).Sum acc).1 = writeAll resetState cs ∧
    ((((writeAll resetState cs).Sum acc).1.Write p).1.checkSum).2 =
      (((resetState.Write (cs.flatten ++ p)).1).checkSum).2 := by
  refine ⟨rfl, ?_⟩
  show (((writeAll resetState cs).Write p).1.checkSum).2 = _
  rw [writeAll_reset, write_stateOf, resetState_eq, write_stateOf,
    List.nil_append]

/-- Claim C10: the per-byte big-endian serialization at the end of
`checkSum` and `Int2Bytes` agree on every list of eight 32-bit words. -/
theorem c10_serializations_agree (h : List Nat) (_h8 : h.length = 8)
    (_hw : ∀ w ∈ h, w < 2 ^ 32) :
    serializeWords h = Int2Bytes h := rfl

/-- Witness for C10 at the initialization vector. -/
theorem c10_witness :
    initH.length = 8 ∧ (∀ w ∈ initH, w < 2 ^ 32) ∧
    serializeWords initH = Int2Bytes initH :=
  ⟨by decide, by decide, c10_serializations_agree initH (by decide) (by decide)⟩

/-- Claim C8: for an input whose length is an exact multiple of 64 bytes,
finalization writes exactly 64 bytes of padding — 56 bytes beginning with
`0x80`, then the 8 length bytes — i.e. exactly one additional full block is
compressed beyond the blocks of the input, and the total length advances by
exactly 64. -/
theorem c8_exact_multiple_padding (s : List Nat) (h64 : s.length % 64 = 0) :
    padBytes s.length = 0x80 :: List.replicate 55 0 ∧
    (padBytes s.length).length + (lenBytes s.length).length = 64 ∧
    (padded (stateOf s)).h =
      sha256Compress (stateOf s).h
        ((0x80 :: List.replicate 55 0) ++ lenBytes s.length) ∧
    (padded (stateOf s)).len = (s.length + 64) % 2 ^ 64 := by
  have hpad : padBytes s.length = 0x80 :: List.replicate 55 0 := by
    unfold padBytes
    rw [if_pos (by omega), h64, Nat.sub_zero]
    decide
  refine ⟨hpad, ?_, ?_, ?_⟩
  · rw [hpad, lenBytes_length]
    simp
  · rw [padded_stateOf]
    show blockCompress initH ((s ++ padBytes s.length) ++ lenBytes s.length) = _
    rw [hpad, List.append_assoc, blockCompress_append _ _ _ h64,
      blockCompress_single _ _ (by rw [List.length_append, lenBytes_length]; simp)]
    rfl
  · rw [padded_stateOf]
    show ((s ++ padBytes s.length) ++ lenBytes s.length).length % 2 ^ 64 = _
    rw [List.length_append, List.length_append, hpad, lenBytes_length]
    simp

/-- Witness for C8 at a one-block input of 64 zero bytes. -/
theorem c8_witness :
    (List.replicate 64 (0 : Nat)).length % 64 = 0 ∧
    (padBytes (List.replicate 64 (0 : Nat)).length = 0x80 :: List.replicate 55 0 ∧
     (padBytes (List.replicate 64 (0 : Nat)).length).length +
       (lenBytes (List.replicate 64 (0 : Nat)).length).length = 64 ∧
     (padded (stateOf (List.replicate 64 (0 : Nat)))).h =
       sha256Compress (stateOf (List.replicate 64 (0 : Nat))).h
         ((0x80 :: List.replicate 55 0) ++
           lenBytes (List.replicate 64 (0 : Nat)).length) ∧
     (padded (stateOf (List.replicate 64 (0 : Nat)))).len =
       ((List.replicate 64 (0 : Nat)).length + 64) % 2 ^ 64) :=
  ⟨by decide, c8_exact_multiple_padding (List.replicate 64 0) (by decide)⟩

/-- Claim C3: on every 32-byte input the fast path `Sum256D32` returns
exactly the digest of the general path `Sum256`. -/
theorem c3_fast_path_equiv (data : List Nat) (h32 : data.length = 32) :
    Sum256 data = some (Sum256D32 data) := by
  show ((resetState.Write data).1.checkSum).2 = _
  rw [resetState_eq, write_stateOf, List.nil_append, checkSum_stateOf]
  dsimp only
  rw [h32]
  simp only [Sum256D32]
  rw [h32]
  have hmin : min 64 32 = 32 := by decide
  rw [hmin, show data.take 32 = data from by rw [← h32, List.take_length],
    show (64 : Nat) - 32 = 32 from by decide]
  rw [List.set_append_right _ _ (by omega), List.set_append_right _ _ (by omega),
    h32]
  rw [show ((List.replicate 32 (0 : Nat)).set (32 - 32) 0x80).set (62 - 32) 0x01
      = (0x80 :: List.replicate 23 0) ++ lenBytes 32 from by decide]
  rw [show padBytes 32 = 0x80 :: List.replicate 23 0 from by decide]
  rw [List.append_assoc]
  rfl

/-- Witness for C3 at the all-zero 32-byte input. -/
theorem c3_witness :
    (List.replicate 32 (0 : Nat)).length = 32 ∧
    Sum256 (List.replicate 32 (0 : Nat)) =
      some (Sum256D32 (List.replicate 32 (0 : Nat))) :=
  ⟨by decide, c3_fast_path_equiv (List.replicate 32 0) (by decide)⟩


/-- Counterexample for C4: rendered as lowercase hexadecimal, the digest of
the empty input does not equal the 63-character string given by the spec,
`e3b0...b85` (a 32-byte digest renders as 64 hex characters). -/
theorem c4_counterexample :
    ¬ ((Sum256 []).map bytesToHex =
        some "e3b0c44298fc1c149afbf4c8996fb92427ae41e4649b934ca495991b7852b85") := by
  decide

/-- Claim C4 as amended: the digest of the empty input, rendered as
lowercase hexadecimal, equals the 64-character
`e3b0c44298fc1c149afbf4c8996fb92427ae41e4649b934ca495991b7852b855`. -/
theorem c4_empty_digest_hex :
    (Sum256 []).map bytesToHex =
      some "e3b0c44298fc1c149afbf4c8996fb92427ae41e4649b934ca495991b7852b855" := by
  decide

/-- Counterexample for C2: at the empty input (length 0 ≠ 32), `Sum256D32`
surfaces no error — it returns an ordinary 32-byte value — and that value
is not the SHA-256 digest of the input, so the precondition violation is
silently turned into an incorrect result. -/
theorem c2_counterexample :
    ([] : List Nat).length ≠ 32 ∧
    (Sum256D32 ([] : List Nat)).length = 32 ∧
    Sum256 ([] : List Nat) ≠ some (Sum256D32 ([] : List Nat)) := by
  refine ⟨by decide, by decide, by decide⟩

/-- Claim C2 as amended: `Sum256D32` performs no input-length validation
and has no error path — for every input (of any length) it returns an
ordinary 32-byte digest value, which for lengths other than 32 bytes can
silently differ from the true digest of the input. -/
theorem c2_no_validation (data : List Nat) :
    (Sum256D32 data).length = 32 := by
  show (Int2Bytes (blockCompress initH _)).length = 32
  rw [int2Bytes_length, blockCompress_length _ _ (by decide)]

end Sha256Simd
